import Mathlib

/-!
Verification of the dashboard version diff-and-restore engine:
`pkg/services/sqlstore/dashboard_version.go` and
`pkg/services/sqlstore/formatter/diff.go`.

Modelling conventions.  Go values decoded from JSON (`interface{}` trees)
are modelled by the inductive `Json`; Go maps (`map[string]interface{}`)
become association lists whose well-formedness (`wfJson`) demands distinct
keys, Go slices become lists, Go `int`/`int64` become `Int`.  Mutable
formatter state is threaded explicitly; Go appends stack frames at the end
of a slice, which is modelled with the head of a list as the top of the
stack (the observable operations are push/pop/read-top/write-top only).
`time.Now()` is modelled as an explicit `now` argument.
-/

inductive Json where
  | null : Json
  | bool (b : Bool) : Json
  | num (n : Int) : Json
  | str (s : String) : Json
  | arr (elems : List Json) : Json
  | obj (members : List (String × Json)) : Json

/-- Looks up a key in an association list modelling a Go map (first match). -/
def lookupJ : List (String × Json) → String → Option Json
  | [], _ => none
  | (k', v) :: rest, k => if k' = k then some v else lookupJ rest k

theorem lookupJ_sizeOf {m : List (String × Json)} {k : String} {v : Json}
    (h : lookupJ m k = some v) : sizeOf v < sizeOf m := by
  induction m with
  | nil => simp [lookupJ] at h
  | cons p rest ih =>
    obtain ⟨k', v'⟩ := p
    by_cases hk : k' = k
    · simp [lookupJ, hk] at h
      subst h
      simp
      omega
    · simp [lookupJ, hk] at h
      have hlk := ih h
      simp
      omega

/-- Membership of a key in an association list modelling a Go map. -/
def hasKey : List (String × Json) → String → Bool
  | [], _ => false
  | (k', _) :: rest, k => if k' = k then true else hasKey rest k

theorem lookupJ_isSome_of_hasKey {m : List (String × Json)} {k : String}
    (h : hasKey m k = true) : (lookupJ m k).isSome := by
  induction m with
  | nil => simp [hasKey] at h
  | cons p rest ih =>
    obtain ⟨k', v'⟩ := p
    by_cases hk : k' = k
    · simp [lookupJ, hk]
    · simp [hasKey, hk] at h
      simpa [lookupJ, hk] using ih h

theorem hasKey_of_lookupJ_isSome {m : List (String × Json)} {k : String}
    (h : (lookupJ m k).isSome) : hasKey m k = true := by
  induction m with
  | nil => simp [lookupJ] at h
  | cons p rest ih =>
    obtain ⟨k', v'⟩ := p
    by_cases hk : k' = k
    · simp [hasKey, hk]
    · simp [lookupJ, hk] at h
      simpa [hasKey, hk] using ih h

/-- Replaces the binding for a key, or appends it, in an association list.
This models assignment `m[k] = v` on a Go map. -/
def setKey : List (String × Json) → String → Json → List (String × Json)
  | [], k, v => [(k, v)]
  | (k', v') :: rest, k, v =>
      if k' = k then (k, v) :: rest else (k', v') :: setKey rest k v

/-- Models `simplejson.Json.Set(key, val)`: sets a member on an object;
on a non-object value `Json.Map()` errors and `Set` silently does nothing. -/
def Json.set : Json → String → Json → Json
  | .obj kvs, k, v => .obj (setKey kvs k v)
  | j, _, _ => j

/-- Go `%T` rendering of the dynamic type of a decoded JSON value. -/
def goTypeName : Json → String
  | .null => "<nil>"
  | .bool _ => "bool"
  | .num _ => "float64"
  | .str _ => "string"
  | .arr _ => "[]interface \x7b\x7d"
  | .obj _ => "map[string]interface \x7b\x7d"

/-- Scalar (non-container) JSON values. -/
def Json.isScalar : Json → Bool
  | .obj _ => false
  | .arr _ => false
  | _ => true

mutual
/-- Well-formed decoded JSON: every object has pairwise distinct keys,
as a Go map necessarily does. -/
def wfJson : Json → Bool
  | .obj kvs => wfMembers kvs
  | .arr es => wfElems es
  | _ => true

def wfMembers : List (String × Json) → Bool
  | [] => true
  | (k, v) :: rest => !hasKey rest k && wfJson v && wfMembers rest

def wfElems : List Json → Bool
  | [] => true
  | v :: rest => wfJson v && wfElems rest
end

/-- Inserts a string into a (sorted) list of strings, keeping ascending
order; building block for the formatter's key sort. -/
def insertKeySorted (k : String) : List String → List String
  | [] => [k]
  | x :: xs => if k ≤ x then k :: x :: xs else x :: insertKeySorted k xs

/-- Ascending insertion sort on strings, modelling `sort.Strings`
(any correct string sort produces the same list). -/
def sortStringsAsc : List String → List String
  | [] => []
  | x :: xs => insertKeySorted x (sortStringsAsc xs)

/-- Models `sortedKeys` (diff.go): collects the keys of an object and sorts
them in ascending lexicographic order. -/
def sortedKeys (m : List (String × Json)) : List String :=
  sortStringsAsc (m.map Prod.fst)

theorem insertKeySorted_perm (k : String) (l : List String) :
    List.Perm (insertKeySorted k l) (k :: l) := by
  induction l with
  | nil => simp [insertKeySorted]
  | cons x xs ih =>
    by_cases h : k ≤ x
    · simp [insertKeySorted, h]
    · simp only [insertKeySorted, if_neg h]
      exact List.Perm.trans (ih.cons x) (List.Perm.swap _ _ _)

theorem sortStringsAsc_perm (l : List String) :
    List.Perm (sortStringsAsc l) l := by
  induction l with
  | nil => simp [sortStringsAsc]
  | cons x xs ih =>
    exact List.Perm.trans (insertKeySorted_perm x (sortStringsAsc xs)) (ih.cons x)

theorem insertKeySorted_sorted {l : List String}
    (h : l.Sorted (· ≤ ·)) (k : String) :
    (insertKeySorted k l).Sorted (· ≤ ·) := by
  induction l with
  | nil => simp [insertKeySorted]
  | cons x xs ih =>
    rcases List.sorted_cons.mp h with ⟨hx, hxs⟩
    by_cases hk : k ≤ x
    · simp only [insertKeySorted, if_pos hk]
      refine List.sorted_cons.mpr ⟨?_, h⟩
      intro b hb
      rcases List.mem_cons.mp hb with hb | hb
      · rw [hb]; exact hk
      · exact le_trans hk (hx b hb)
    · simp only [insertKeySorted, if_neg hk]
      refine List.sorted_cons.mpr ⟨?_, ih hxs⟩
      intro b hb
      have hb' := (insertKeySorted_perm k xs).mem_iff.mp hb
      rcases List.mem_cons.mp hb' with hb'' | hb''
      · rw [hb'']
        exact le_of_not_le hk
      · exact hx b hb''

theorem sortStringsAsc_sorted (l : List String) :
    (sortStringsAsc l).Sorted (· ≤ ·) := by
  induction l with
  | nil => simp [sortStringsAsc]
  | cons x xs ih => exact insertKeySorted_sorted ih x

theorem sortedKeys_perm (m : List (String × Json)) :
    List.Perm (sortedKeys m) (m.map Prod.fst) :=
  sortStringsAsc_perm _

theorem sortedKeys_sorted (m : List (String × Json)) :
    (sortedKeys m).Sorted (· ≤ ·) :=
  sortStringsAsc_sorted _

theorem sortedKeys_perm_invariant (m m' : List (String × Json))
    (h : List.Perm (m.map Prod.fst) (m'.map Prod.fst)) :
    sortedKeys m = sortedKeys m' := by
  refine List.eq_of_perm_of_sorted ?_ (sortedKeys_sorted m) (sortedKeys_sorted m')
  exact List.Perm.trans (sortedKeys_perm m)
    (List.Perm.trans h (sortedKeys_perm m').symm)

/-- Position of a delta inside the tree: an object key or an array index
(gojsondiff `Name`/`Index`, consumed by diff.go). -/
inductive Position where
  | name (s : String) : Position
  | index (i : Nat) : Position
deriving DecidableEq

/-- Go `Position.String()`. -/
def Position.toStr : Position → String
  | .name s => s
  | .index i => toString i

/-- DeltaModel nodes as consumed by the renderers (diff.go's `switch` over
gojsondiff delta kinds).  `deleted` is positioned by its pre-position, the
others by their post-position; `moved` carries both. -/
inductive Delta where
  | object (pos : Position) (deltas : List Delta) : Delta
  | array (pos : Position) (deltas : List Delta) : Delta
  | added (pos : Position) (value : Json) : Delta
  | modified (pos : Position) (oldValue newValue : Json) : Delta
  | textDiff (pos : Position) (oldValue newValue : Json) : Delta
  | deleted (pos : Position) (value : Json) : Delta
  | moved (prePos postPos : Position) (value : Json) : Delta

/-- The diff result handed to the renderers; gojsondiff's `Diff.Modified()`
is `deltas ≠ []`. -/
structure JDiff where
  deltas : List Delta

def JDiff.isModified (d : JDiff) : Bool := !d.deltas.isEmpty

/-- Keys present only on the new side become `added` nodes carrying the whole
new value (no recursion); part of the spec-modelled TreeDiffEngine below. -/
def diffAddedKeys (lm rm : List (String × Json)) : List Delta :=
  rm.filterMap (fun kv =>
    if hasKey lm kv.1 then none else some (Delta.added (.name kv.1) kv.2))

mutual
/-- Modelled from the spec: the TreeDiffEngine (§4.2) — the vendored
gojsondiff library is not part of src/.  Both objects: union of keys, new-only
keys become `added`, original-only keys become `deleted`, common keys recurse
and a changed container child is wrapped in an `object`/`array` node.  Both
arrays: positional comparison, trailing new elements `added`, trailing
original elements `deleted`.  Unequal strings give `textDiff`, other unequal
scalars and mismatched kinds give `modified` (whole-value replacement).
Equal values contribute no delta.  The exact-relocation `moved` heuristic is
omitted: it cannot fire at a position whose two sides are equal, which is the
only situation the claims quantify over. -/
def diffAt (pos : Position) (l r : Json) : List Delta :=
  match l, r with
  | .obj lm, .obj rm =>
      match diffLeft lm rm ++ diffAddedKeys lm rm with
      | [] => []
      | ds => [.object pos ds]
  | .arr la, .arr ra =>
      match diffElems 0 la ra with
      | [] => []
      | ds => [.array pos ds]
  | .str a, .str b =>
      if a = b then [] else [.textDiff pos (.str a) (.str b)]
  | .num a, .num b =>
      if a = b then [] else [.modified pos (.num a) (.num b)]
  | .bool a, .bool b =>
      if a = b then [] else [.modified pos (.bool a) (.bool b)]
  | .null, .null => []
  | l, r => [.modified pos l r]
termination_by sizeOf l + sizeOf r
decreasing_by
  all_goals simp_wf
  all_goals try simp
  all_goals omega

def diffLeft : List (String × Json) → List (String × Json) → List Delta
  | [], _ => []
  | (k, v) :: rest, rm =>
      (match h : lookupJ rm k with
       | none => [Delta.deleted (.name k) v]
       | some rv => diffAt (.name k) v rv) ++ diffLeft rest rm
termination_by lm rm => sizeOf lm + sizeOf rm
decreasing_by
  all_goals simp_wf
  all_goals try (have hlk := lookupJ_sizeOf h)
  all_goals try simp
  all_goals try simp at hlk
  all_goals omega

def diffElems (i : Nat) : List Json → List Json → List Delta
  | [], [] => []
  | [], w :: ws => Delta.added (.index i) w :: diffElems (i + 1) [] ws
  | v :: vs, [] => Delta.deleted (.index i) v :: diffElems (i + 1) vs []
  | v :: vs, w :: ws => diffAt (.index i) v w ++ diffElems (i + 1) vs ws
termination_by la ra => sizeOf la + sizeOf ra
decreasing_by
  all_goals simp_wf
  all_goals try simp
  all_goals omega
end

/-- Modelled from the spec: `gojsondiff.New().Compare` on two documents;
the deltas of the resulting diff. -/
def compareJson (l r : Json) : JDiff :=
  match l, r with
  | .obj lm, .obj rm => ⟨diffLeft lm rm ++ diffAddedKeys lm rm⟩
  | .arr la, .arr ra => ⟨diffElems 0 la ra⟩
  | l, r => ⟨diffAt (.name "ROOT") l r⟩

theorem hasKey_of_mem {m : List (String × Json)} {k : String} {v : Json}
    (h : (k, v) ∈ m) : hasKey m k = true := by
  induction m with
  | nil => simp at h
  | cons p rest ih =>
    obtain ⟨k0, v0⟩ := p
    rcases List.mem_cons.mp h with h' | h'
    · obtain ⟨hk, _⟩ := Prod.mk.injEq .. ▸ h'
      simp [hasKey, hk.symm]
    · by_cases hk : k0 = k
      · simp [hasKey, hk]
      · simpa [hasKey, hk] using ih h'

theorem lookupJ_mem_of_wf {m : List (String × Json)} {k : String} {v : Json}
    (hwf : wfMembers m = true) (h : (k, v) ∈ m) : lookupJ m k = some v := by
  induction m with
  | nil => simp at h
  | cons p rest ih =>
    obtain ⟨k0, v0⟩ := p
    simp only [wfMembers, Bool.and_eq_true, Bool.not_eq_true'] at hwf
    obtain ⟨⟨hnk, _⟩, hrest⟩ := hwf
    rcases List.mem_cons.mp h with h' | h'
    · obtain ⟨hk, hv⟩ := Prod.mk.injEq .. ▸ h'
      simp [lookupJ, hk.symm, hv]
    · by_cases hk : k0 = k
      · subst hk
        exact absurd (hasKey_of_mem h') (by simp [hnk])
      · simpa [lookupJ, hk] using ih hrest h'

theorem wfJson_of_mem {m : List (String × Json)} {k : String} {v : Json}
    (hwf : wfMembers m = true) (h : (k, v) ∈ m) : wfJson v = true := by
  induction m with
  | nil => simp at h
  | cons p rest ih =>
    obtain ⟨k0, v0⟩ := p
    simp only [wfMembers, Bool.and_eq_true] at hwf
    obtain ⟨⟨_, hv0⟩, hrest⟩ := hwf
    rcases List.mem_cons.mp h with h' | h'
    · obtain ⟨_, hv⟩ := Prod.mk.injEq .. ▸ h'
      rw [← hv] at hv0
      exact hv0
    · exact ih hrest h'

theorem wfJson_of_mem_elems {es : List Json} {v : Json}
    (hwf : wfElems es = true) (h : v ∈ es) : wfJson v = true := by
  induction es with
  | nil => simp at h
  | cons w rest ih =>
    simp only [wfElems, Bool.and_eq_true] at hwf
    rcases List.mem_cons.mp h with h' | h'
    · rw [h']; exact hwf.1
    · exact ih hwf.2 h'

theorem diffAddedKeys_self (lm : List (String × Json)) :
    diffAddedKeys lm lm = [] := by
  simp only [diffAddedKeys, List.filterMap_eq_nil]
  intro kv hkv
  simp [hasKey_of_mem (show (kv.1, kv.2) ∈ lm from hkv)]

theorem diffLeft_self_aux (sub full : List (String × Json))
    (h : ∀ k v, (k, v) ∈ sub →
      lookupJ full k = some v ∧ diffAt (.name k) v v = []) :
    diffLeft sub full = [] := by
  induction sub with
  | nil => simp [diffLeft]
  | cons p rest ih =>
    obtain ⟨k, v⟩ := p
    obtain ⟨hlook, hdiff⟩ := h k v (by simp)
    have hrest : diffLeft rest full = [] :=
      ih (fun k' v' hm => h k' v' (by simp [hm]))
    simp only [diffLeft, hrest, List.append_nil]
    split
    all_goals simp_all

theorem diffElems_self (es : List Json)
    (h : ∀ v ∈ es, ∀ pos, diffAt pos v v = []) :
    ∀ i, diffElems i es es = [] := by
  induction es with
  | nil => intro i; simp [diffElems]
  | cons v vs ih =>
    intro i
    have h1 := h v (by simp) (Position.index i)
    have h2 : ∀ w ∈ vs, ∀ pos, diffAt pos w w = [] :=
      fun w hw => h w (by simp [hw])
    simp [diffElems, h1, ih h2]

theorem diffAt_self_aux :
    ∀ (n : Nat) (v : Json), sizeOf v ≤ n → wfJson v = true →
      ∀ pos, diffAt pos v v = [] := by
  intro n
  induction n with
  | zero =>
    intro v hv
    exact absurd hv (by cases v <;> simp <;> omega)
  | succ n ih =>
    intro v hv hwf pos
    match v with
    | .null => simp [diffAt]
    | .bool b => simp [diffAt]
    | .num m => simp [diffAt]
    | .str s => simp [diffAt]
    | .arr es =>
      have hsz : sizeOf es ≤ n := by
        simp at hv
        omega
      have hmem : ∀ w ∈ es, ∀ p, diffAt p w w = [] := by
        intro w hw p
        have hlt := List.sizeOf_lt_of_mem hw
        exact ih w (by omega) (wfJson_of_mem_elems (by simpa [wfJson] using hwf) hw) p
      simp [diffAt, diffElems_self es hmem 0]
    | .obj kvs =>
      have hsz : sizeOf kvs ≤ n := by
        simp at hv
        omega
      have hwfm : wfMembers kvs = true := by simpa [wfJson] using hwf
      have hmem : ∀ k w, (k, w) ∈ kvs →
          lookupJ kvs k = some w ∧ diffAt (.name k) w w = [] := by
        intro k w hm
        refine ⟨lookupJ_mem_of_wf hwfm hm, ?_⟩
        have hlt := List.sizeOf_lt_of_mem hm
        have hw : sizeOf w < sizeOf kvs := by
          simp at hlt
          omega
        exact ih w (by omega) (wfJson_of_mem hwfm hm) _
      simp [diffAt, diffLeft_self_aux kvs kvs hmem, diffAddedKeys_self]

theorem diffAt_self {v : Json} (hwf : wfJson v = true) (pos : Position) :
    diffAt pos v v = [] :=
  diffAt_self_aux (sizeOf v) v le_rfl hwf pos

theorem compareJson_self {v : Json} (hwf : wfJson v = true) :
    (compareJson v v).deltas = [] := by
  match v with
  | .null => simp [compareJson, diffAt]
  | .bool b => simp [compareJson, diffAt]
  | .num m => simp [compareJson, diffAt]
  | .str s => simp [compareJson, diffAt]
  | .arr es =>
    have hmem : ∀ w ∈ es, ∀ p, diffAt p w w = [] := fun w hw p =>
      diffAt_self (wfJson_of_mem_elems (by simpa [wfJson] using hwf) hw) p
    simp [compareJson, diffElems_self es hmem 0]
  | .obj kvs =>
    have hwfm : wfMembers kvs = true := by simpa [wfJson] using hwf
    have hmem : ∀ k w, (k, w) ∈ kvs →
        lookupJ kvs k = some w ∧ diffAt (.name k) w w = [] := fun k w hm =>
      ⟨lookupJ_mem_of_wf hwfm hm, diffAt_self (wfJson_of_mem hwfm hm) _⟩
    simp [compareJson, diffLeft_self_aux kvs kvs hmem, diffAddedKeys_self]

/-- AsciiFormatterConfig (diff.go). -/
structure AsciiFormatterConfig where
  showArrayIndex : Bool
  coloring : Bool

def AsciiFormatterDefaultConfig : AsciiFormatterConfig := ⟨false, false⟩

/-- AsciiLine (diff.go): the line being assembled. -/
structure AsciiLine where
  marker : String
  indent : Nat
  buffer : String

/-- Mutable fields of AsciiFormatter, threaded explicitly.  `config` is fixed
for the whole render.  Go keeps the stack tops at the end of the `path`,
`size`, `inArray` slices; the head of each list is the top here. -/
structure FmtState where
  buffer : String
  path : List String
  size : List Int
  inArray : List Bool
  line : Option AsciiLine
  config : AsciiFormatterConfig

def AsciiSame : String := " "

def AsciiAdded : String := "+"

def AsciiDeleted : String := "-"

/-- Models the `AsciiStyles` map. -/
def asciiStyleOf (marker : String) : Option String :=
  if marker = AsciiAdded then some "diff-added"
  else if marker = AsciiDeleted then some "diff-deleted"
  else none

/-- Appends text to the current line.  Every Go call site has an open line;
the `none` case is modelled as a no-op. -/
def appendToLine (s : String) (st : FmtState) : FmtState :=
  match st.line with
  | none => st
  | some l => { st with line := some { l with buffer := l.buffer ++ s } }

def indentStr : Nat → String
  | 0 => ""
  | n + 1 => indentStr n ++ "  "

/-- Models `closeLine`: flushes the current line (optionally span-wrapped when
coloring is on and the marker is styled) into the output buffer. -/
def closeLine (st : FmtState) : FmtState :=
  match st.line with
  | none => st
  | some l =>
    let styled := st.config.coloring && (asciiStyleOf l.marker).isSome
    let pre := if styled
      then "<span class=\"" ++ (asciiStyleOf l.marker).getD "" ++ "\">" else ""
    let post := if styled then "</span>" else ""
    { st with buffer :=
        st.buffer ++ pre ++ l.marker ++ indentStr l.indent ++ l.buffer ++ post ++ "\n" }

def newLine (marker : String) (st : FmtState) : FmtState :=
  { st with line := some ⟨marker, st.path.length, ""⟩ }

def addLineWith (marker value : String) (st : FmtState) : FmtState :=
  closeLine { st with line := some ⟨marker, st.path.length, value⟩ }

def push (name : String) (size : Int) (array : Bool) (st : FmtState) : FmtState :=
  { st with path := name :: st.path, size := size :: st.size,
            inArray := array :: st.inArray }

def pop (st : FmtState) : FmtState :=
  { st with path := st.path.tail, size := st.size.tail,
            inArray := st.inArray.tail }

def printKey (name : String) (st : FmtState) : FmtState :=
  match st.inArray with
  | [] => st
  | inArr :: _ =>
    if !inArr then appendToLine ("\"" ++ name ++ "\": ") st
    else if st.config.showArrayIndex then appendToLine (name ++ ": ") st
    else st

/-- Models `printComma`: decrements the remaining-sibling counter of the
current nesting level and appends a comma while siblings remain. -/
def printComma (st : FmtState) : FmtState :=
  match st.size with
  | [] => st
  | n :: rest =>
    let st := { st with size := (n - 1) :: rest }
    if n - 1 > 0 then appendToLine "," st else st

/-- Scalar rendering of `printValue` (the container default case is
unreachable: `printRecursive` dispatches containers before calling this). -/
def printValueStr : Json → String
  | .str s => "\"" ++ s ++ "\""
  | .null => "null"
  | .num n => toString n
  | .bool b => cond b "true" "false"
  | _ => ""

def printValue (value : Json) (st : FmtState) : FmtState :=
  match value with
  | .obj _ => st
  | .arr _ => st
  | v => appendToLine (printValueStr v) st

def printStr (a : String) (st : FmtState) : FmtState := appendToLine a st

mutual
/-- Models `printRecursive` (diff.go): renders a whole value under one marker,
visiting object members in sorted key order. -/
def printRecursive (name : String) (value : Json) (marker : String)
    (st : FmtState) : FmtState :=
  match value with
  | .obj m =>
    let st1 := closeLine (printStr "\x7b" (printKey name (newLine marker st)))
    let st2 := push name (Int.ofNat m.length) false st1
    let st3 := printMembers (sortedKeys m) m marker st2
    let st4 := pop st3
    closeLine (printComma (printStr "\x7d" (newLine marker st4)))
  | .arr s =>
    let st1 := closeLine (printStr "[" (printKey name (newLine marker st)))
    let st2 := push "" (Int.ofNat s.length) true st1
    let st3 := printElems s marker st2
    let st4 := pop st3
    closeLine (printComma (printStr "]" (newLine marker st4)))
  | v =>
    closeLine (printComma (printValue v (printKey name (newLine marker st))))
termination_by (sizeOf value, 0)
decreasing_by
  all_goals simp_wf
  all_goals apply Prod.Lex.left
  all_goals first
    | omega
    | (simp; omega)

/-- The `for _, key := range keys` loop of `printRecursive`; the `none`
branch cannot occur since the names are the object's own keys. -/
def printMembers (names : List String) (m : List (String × Json))
    (marker : String) (st : FmtState) : FmtState :=
  match names with
  | [] => st
  | name :: rest =>
    match h : lookupJ m name with
    | some v => printMembers rest m marker (printRecursive name v marker st)
    | none => printMembers rest m marker st
termination_by (sizeOf m, names.length)
decreasing_by
  all_goals simp_wf
  all_goals first
    | (apply Prod.Lex.right; omega)
    | (apply Prod.Lex.left
       have hlk := lookupJ_sizeOf h
       omega)

def printElems (items : List Json) (marker : String) (st : FmtState) :
    FmtState :=
  match items with
  | [] => st
  | item :: rest => printElems rest marker (printRecursive "" item marker st)
termination_by (sizeOf items, 0)
decreasing_by
  all_goals simp_wf
  all_goals apply Prod.Lex.left
  all_goals first
    | omega
    | (simp; omega)
end

def topSize (st : FmtState) : Int := st.size.headD 0

def setTopSize (n : Int) (st : FmtState) : FmtState :=
  match st.size with
  | [] => st
  | _ :: rest => { st with size := n :: rest }

def incTopSize (st : FmtState) : FmtState :=
  match st.size with
  | [] => st
  | n :: rest => { st with size := (n + 1) :: rest }

/-- Position matching of `searchDeltas`: `deleted` matches on its
pre-position, every other kind (including `moved`, whose Go type switch hits
the `PostDelta` case first) matches on its post-position. -/
def matchesPosition (d : Delta) (pos : Position) : Bool :=
  match d with
  | .object p _ => p == pos
  | .array p _ => p == pos
  | .added p _ => p == pos
  | .modified p _ _ => p == pos
  | .textDiff p _ _ => p == pos
  | .deleted p _ => p == pos
  | .moved _ post _ => post == pos

def searchDeltas (deltas : List Delta) (pos : Position) : List Delta :=
  deltas.filter (fun d => matchesPosition d pos)

/-- The trailing `Added` loop of `processObject`: prints every `added` delta
recursively under the `+` marker. -/
def processObjectAdded (deltas : List Delta) (st : FmtState) : FmtState :=
  deltas.foldl (fun s d =>
    match d with
    | .added p v => printRecursive p.toStr v AsciiAdded s
    | _ => s) st

/-- The trailing `Added` loop of `processArray`: prints `added` deltas whose
index lies beyond the original array.  Go type-asserts the position to an
`Index` (a `name` position would crash there and cannot occur for array
deltas); that dead branch is modelled as a no-op. -/
def processArrayTrailing (arrayLen : Nat) (deltas : List Delta)
    (st : FmtState) : FmtState :=
  deltas.foldl (fun s d =>
    match d with
    | .added (.index i) v =>
        if i < arrayLen then s
        else printRecursive (Position.index i).toStr v AsciiAdded s
    | _ => s) st

mutual
/-- Models `processItem` (diff.go): renders one position of the current
container, dispatching on the deltas matched at that position.  The returned
`Option String` is the Go `error` — note that every caller discards it. -/
def processItem (value : Json) (deltas : List Delta) (pos : Position)
    (st : FmtState) : FmtState × Option String :=
  let matchedDeltas := searchDeltas deltas pos
  if matchedDeltas.length > 0 then
    processMatched value matchedDeltas pos st
  else
    (printRecursive pos.toStr value AsciiSame st, none)
termination_by (sizeOf value, 2, (searchDeltas deltas pos).length + 1)
decreasing_by
  all_goals simp_wf
  all_goals apply Prod.Lex.right
  all_goals apply Prod.Lex.right
  all_goals omega

/-- The `for _, matchedDelta := range matchedDeltas` loop of `processItem`;
a `return err` in Go abandons the rest of the loop with the state as-is. -/
def processMatched (value : Json) (ms : List Delta) (pos : Position)
    (st : FmtState) : FmtState × Option String :=
  match ms with
  | [] => (st, none)
  | d :: rest =>
    match d with
    | .object _ ds =>
      match value with
      | .obj o =>
        let st1 := closeLine (printStr "\x7b" (printKey pos.toStr
          (newLine AsciiSame st)))
        let st2 := push pos.toStr (Int.ofNat o.length) false st1
        let st3 := processObject o ds st2
        let st4 := pop st3
        let st5 := closeLine (printComma (printStr "\x7d"
          (newLine AsciiSame st4)))
        processMatched (Json.obj o) rest pos st5
      | _ => (st, some "Type mismatch")
    | .array _ ds =>
      match value with
      | .arr a =>
        let st1 := closeLine (printStr "[" (printKey pos.toStr
          (newLine AsciiSame st)))
        let st2 := push pos.toStr (Int.ofNat a.length) true st1
        let st3 := processArray a ds st2
        let st4 := pop st3
        let st5 := closeLine (printComma (printStr "]"
          (newLine AsciiSame st4)))
        processMatched (Json.arr a) rest pos st5
      | _ => (st, some "Type mismatch")
    | .added _ v =>
      let st1 := printRecursive pos.toStr v AsciiAdded st
      let st2 := incTopSize st1
      processMatched value rest pos st2
    | .modified _ oldValue newValue =>
      let savedSize := topSize st
      let st1 := printRecursive pos.toStr oldValue AsciiDeleted st
      let st2 := setTopSize savedSize st1
      let st3 := printRecursive pos.toStr newValue AsciiAdded st2
      processMatched value rest pos st3
    | .textDiff _ oldValue newValue =>
      let savedSize := topSize st
      let st1 := printRecursive pos.toStr oldValue AsciiDeleted st
      let st2 := setTopSize savedSize st1
      let st3 := printRecursive pos.toStr newValue AsciiAdded st2
      processMatched value rest pos st3
    | .deleted _ v =>
      let st1 := printRecursive pos.toStr v AsciiDeleted st
      processMatched value rest pos st1
    | .moved _ _ _ => (st, some "Unknown Delta type detected")
termination_by (sizeOf value, 2, ms.length)
decreasing_by
  all_goals simp_wf
  all_goals first
    | (apply Prod.Lex.right; apply Prod.Lex.right; omega)
    | (apply Prod.Lex.left; omega)

/-- Models `processObject` (diff.go): visits the object's members in sorted
key order, then prints the `added` deltas. -/
def processObject (object : List (String × Json)) (deltas : List Delta)
    (st : FmtState) : FmtState :=
  processObjectAdded deltas (processKeys (sortedKeys object) object deltas st)
termination_by (sizeOf object, 1, 0)
decreasing_by
  all_goals simp_wf
  all_goals apply Prod.Lex.right
  all_goals apply Prod.Lex.left
  all_goals omega

/-- The member loop of `processObject`; the `none` branch cannot occur since
the names are the object's own keys. -/
def processKeys (names : List String) (object : List (String × Json))
    (deltas : List Delta) (st : FmtState) : FmtState :=
  match names with
  | [] => st
  | name :: rest =>
    match h : lookupJ object name with
    | some v =>
        processKeys rest object deltas (processItem v deltas (.name name) st).1
    | none => processKeys rest object deltas st
termination_by (sizeOf object, 0, names.length)
decreasing_by
  all_goals simp_wf
  all_goals first
    | (apply Prod.Lex.right; apply Prod.Lex.right; omega)
    | (apply Prod.Lex.left
       have hlk := lookupJ_sizeOf h
       omega)

/-- Models `processArray` (diff.go): visits elements positionally, then the
`added` deltas beyond the original length. -/
def processArray (array : List Json) (deltas : List Delta) (st : FmtState) :
    FmtState :=
  processArrayTrailing array.length deltas (processIdx 0 array deltas st)
termination_by (sizeOf array, 1, 0)
decreasing_by
  all_goals simp_wf
  all_goals apply Prod.Lex.right
  all_goals apply Prod.Lex.left
  all_goals omega

/-- The element loop of `processArray`. -/
def processIdx (i : Nat) (items : List Json) (deltas : List Delta)
    (st : FmtState) : FmtState :=
  match items with
  | [] => st
  | v :: rest => processIdx (i + 1) rest deltas (processItem v deltas (.index i) st).1
termination_by (sizeOf items, 0, 0)
decreasing_by
  all_goals simp_wf
  all_goals apply Prod.Lex.left
  all_goals first
    | omega
    | (simp; omega)
end

/-- Models `formatObject` (diff.go). -/
def formatObject (left : List (String × Json)) (deltas : List Delta)
    (st : FmtState) : FmtState :=
  let st1 := addLineWith AsciiSame "\x7b" st
  let st2 := push "ROOT" (Int.ofNat left.length) false st1
  let st3 := processObject left deltas st2
  let st4 := pop st3
  addLineWith AsciiSame "\x7d" st4

/-- Models `formatArray` (diff.go). -/
def formatArray (left : List Json) (deltas : List Delta)
    (st : FmtState) : FmtState :=
  let st1 := addLineWith AsciiSame "[" st
  let st2 := push "ROOT" (Int.ofNat left.length) true st1
  let st3 := processArray left deltas st2
  let st4 := pop st3
  addLineWith AsciiSame "]" st4

/-- Models `AsciiFormatter.Format`: resets the state, dispatches on the root
of the left value, and errors (with an empty result) when the root is neither
an object nor an array.  On the success paths the returned error is
unconditionally `none` — internal `processItem` errors are discarded. -/
def asciiFormat (left : Json) (deltas : List Delta)
    (config : AsciiFormatterConfig) : String × Option String :=
  let st : FmtState := ⟨"", [], [], [], none, config⟩
  match left with
  | .obj m => ((formatObject m deltas st).buffer, none)
  | .arr a => ((formatArray a deltas st).buffer, none)
  | _ => ("", some ("expected map[string]interface\x7b\x7d or []interface\x7b\x7d, got "
      ++ goTypeName left))

/-- Models `mapMerge` (diff.go):  iterates over the right map and writes every
key missing from the left map *into the left map itself* (`leftMap[k] = v` on
the caller's map).  In Go the returned map is the very map object the caller
passed as `left`, so after the call the caller's left value has these entries;
here that in-place effect is expressed by the returned value. -/
def mapMerge (left right : Json) : Json :=
  match left, right with
  | .obj lm, .obj rm =>
      .obj (rm.foldl (fun acc kv =>
        if hasKey acc kv.1 then acc else acc ++ [kv]) lm)
  | l, _ => l

/-- Errors of the sqlstore layer.  `dashboardNotFound`,
`dashboardVersionNotFound`, `noVersionsForDashboardId` and
`unsupportedDiffType` are the source's error values;
`uniqueConstraintViolation` models the database error an insert violating the
unique (dashboard_id, version) index reports; `conflict` is the distinct
`Conflict` failure named by the spec (§4.1, §7), which lets theorems compare
the error the code actually returns against it. -/
inductive Err where
  | dashboardNotFound : Err
  | dashboardVersionNotFound : Err
  | noVersionsForDashboardId : Err
  | unsupportedDiffType : Err
  | uniqueConstraintViolation : Err
  | conflict : Err
deriving DecidableEq

/-- The live Document row (`m.Dashboard`), restricted to the fields
dashboard_version.go reads or writes. -/
structure Dashboard where
  id : Int
  version : Int
  data : Json
  updated : Int
  updatedBy : Int

/-- A Version row (`m.DashboardVersion`). -/
structure DashboardVersionRec where
  dashboardId : Int
  parentVersion : Int
  restoredFrom : Int
  version : Int
  created : Int
  createdBy : Int
  message : String
  data : Json

/-- The backing store state: the dashboard table and the dashboard_version
table. -/
structure SqlStore where
  dashboards : List Dashboard
  dashboardVersions : List DashboardVersionRec

/-- Finds the first version row matching dashboard id and version number,
modelling `x.Where("dashboard_id=? AND version=?", ...).Get(...)`. -/
def findVersionRow : List DashboardVersionRec → Int → Int →
    Option DashboardVersionRec
  | [], _, _ => none
  | r :: rest, did, ver =>
      if r.dashboardId = did ∧ r.version = ver then some r
      else findVersionRow rest did ver

/-- Models `getDashboardVersion`: fetches the version row and stamps the
dashboard id into its payload (`dashboardVersion.Data.Set("id", ...)`). -/
def getDashboardVersion (s : SqlStore) (dashboardId : Int) (version : Int) :
    Except Err DashboardVersionRec :=
  match findVersionRow s.dashboardVersions dashboardId version with
  | none => .error .dashboardVersionNotFound
  | some r => .ok { r with data := r.data.set "id" (Json.num r.dashboardId) }

/-- Finds the first dashboard row with the given id, modelling
`x.Get(&m.Dashboard{Id: dashboardId})`. -/
def findDashboardRow : List Dashboard → Int → Option Dashboard
  | [], _ => none
  | r :: rest, did => if r.id = did then some r else findDashboardRow rest did

/-- Models `getDashboard`. -/
def getDashboard (s : SqlStore) (dashboardId : Int) : Except Err Dashboard :=
  match findDashboardRow s.dashboards dashboardId with
  | none => .error .dashboardNotFound
  | some r => .ok r

/-- The version rows of one document. -/
def versionRowsFor (s : SqlStore) (dashboardId : Int) :
    List DashboardVersionRec :=
  s.dashboardVersions.filter (fun r => r.dashboardId == dashboardId)

/-- Maximum accumulator over a list of integers. -/
def listMax : Int → List Int → Int
  | a, [] => a
  | a, x :: xs => listMax (max a x) xs

/-- Models `getMaxVersion`: `SELECT MAX(version) ... WHERE dashboard_id = ?`,
modelled as: a row is found exactly when version rows exist for the
dashboard; no row found reports `ErrDashboardNotFound`, otherwise the
maximum version number plus one is returned (`v.Max++`). -/
def getMaxVersion (s : SqlStore) (dashboardId : Int) : Except Err Int :=
  match versionRowsFor s dashboardId with
  | [] => .error .dashboardNotFound
  | r :: rest => .ok (listMax r.version (rest.map (fun q => q.version)) + 1)

/-- Models `sess.Id(dashboard.Id).Update(dashboard)`: overwrites every
dashboard row whose id matches and reports the number of affected rows. -/
def updateDashboard (s : SqlStore) (d : Dashboard) : SqlStore × Nat :=
  (({ s with dashboards :=
      s.dashboards.map (fun r => if r.id == d.id then d else r) }),
   (s.dashboards.filter (fun r => r.id == d.id)).length)

/-- Models `sess.Insert(dashVersion)`: inserting a row that violates the
unique (dashboard_id, version) index makes the database report an error;
otherwise the row is added and one row is affected. -/
def insertVersion (s : SqlStore) (v : DashboardVersionRec) :
    Except Err (SqlStore × Nat) :=
  if (s.dashboardVersions.filter (fun r =>
        r.dashboardId == v.dashboardId && r.version == v.version)).isEmpty
  then .ok ({ s with dashboardVersions := v :: s.dashboardVersions }, 1)
  else .error .uniqueConstraintViolation

/-- The final update-and-append step of `RestoreDashboardVersion`
(dashboard_version.go lines 134-159): update the live dashboard row, fail
with `ErrDashboardNotFound` when no row was affected, insert the new version
row, fail with the database error on a uniqueness violation or with
`ErrDashboardNotFound` when no row was affected. -/
def updateAndAppend (s : SqlStore) (dashboard : Dashboard)
    (dashVersion : DashboardVersionRec) : Except Err SqlStore :=
  let p := updateDashboard s dashboard
  if p.2 == 0 then .error .dashboardNotFound
  else
    match insertVersion p.1 dashVersion with
    | .error e => .error e
    | .ok (s2, affected2) =>
        if affected2 == 0 then .error .dashboardNotFound else .ok s2

/-- Models `inTransaction`: the callback's effects become visible only when
it returns no error; on an error the store is left exactly as it was. -/
def inTransaction {α : Type} (s : SqlStore)
    (f : SqlStore → Except Err (α × SqlStore)) : Except Err α × SqlStore :=
  match f s with
  | .ok (a, s2) => (.ok a, s2)
  | .error e => (.error e, s)

/-- The transactional wrapper around the final step alone, used to state
claims about that step's failure behaviour. -/
def updateAndAppendTx (s : SqlStore) (dashboard : Dashboard)
    (dashVersion : DashboardVersionRec) : Except Err Unit × SqlStore :=
  inTransaction s (fun st =>
    match updateAndAppend st dashboard dashVersion with
    | .ok s2 => .ok ((), s2)
    | .error e => .error e)

/-- `m.RestoreDashboardVersionCommand`. -/
structure RestoreCmd where
  dashboardId : Int
  version : Int
  userId : Int

/-- The body of `RestoreDashboardVersion` inside the transaction: fetch the
target version and the live dashboard, compute the next version number,
rewrite the dashboard (payload, version, provenance marker, timestamp,
actor), then update the row and append the new version record.  The new
version record is built exactly as in the source; computing it before the
update is a pure reordering with no observable difference. -/
def restoreCore (s : SqlStore) (cmd : RestoreCmd) (now : Int) :
    Except Err (Dashboard × SqlStore) :=
  match getDashboardVersion s cmd.dashboardId cmd.version with
  | .error e => .error e
  | .ok dashboardVersion =>
    match getDashboard s cmd.dashboardId with
    | .error e => .error e
    | .ok dashboard0 =>
      match getMaxVersion s dashboard0.id with
      | .error e => .error e
      | .ok version =>
        let dashboard : Dashboard :=
          { dashboard0 with
              data := ((dashboardVersion.data.set "version" (Json.num version)).set
                  "restoredFrom" (Json.num cmd.version)),
              updated := now,
              updatedBy := cmd.userId,
              version := version }
        let dashVersion : DashboardVersionRec :=
          { dashboardId := dashboard.id,
            parentVersion := cmd.version,
            restoredFrom := cmd.version,
            version := dashboard.version,
            created := now,
            createdBy := dashboard.updatedBy,
            message := "",
            data := dashboard.data }
        match updateAndAppend s dashboard dashVersion with
        | .error e => .error e
        | .ok s2 => .ok (dashboard, s2)

/-- Models `RestoreDashboardVersion`: the transactional restore. -/
def restoreDashboardVersion (s : SqlStore) (cmd : RestoreCmd) (now : Int) :
    Except Err Dashboard × SqlStore :=
  inTransaction s (fun st => restoreCore st cmd now)

mutual
/-- Structural JSON serializer used by the spec-modelled renderers below. -/
def jsonToString : Json → String
  | .null => "null"
  | .bool b => cond b "true" "false"
  | .num n => toString n
  | .str s => "\"" ++ s ++ "\""
  | .arr es => "[" ++ jsonListToString es ++ "]"
  | .obj kvs => "\x7b" ++ jsonMembersToString kvs ++ "\x7d"

def jsonListToString : List Json → String
  | [] => ""
  | v :: rest => jsonToString v ++ ";" ++ jsonListToString rest

def jsonMembersToString : List (String × Json) → String
  | [] => ""
  | (k, v) :: rest => "\"" ++ k ++ "\":" ++ jsonToString v ++ ";" ++
      jsonMembersToString rest
end

mutual
/-- Modelled from the spec: the machine-readable delta renderer (gojsondiff's
DeltaFormatter, not under src/) — a compact encoding preserving every delta
kind and position. -/
def deltaToString : Delta → String
  | .object p ds => "object(" ++ p.toStr ++ ",[" ++ deltasToString ds ++ "])"
  | .array p ds => "array(" ++ p.toStr ++ ",[" ++ deltasToString ds ++ "])"
  | .added p v => "added(" ++ p.toStr ++ "," ++ jsonToString v ++ ")"
  | .modified p a b =>
      "modified(" ++ p.toStr ++ "," ++ jsonToString a ++ "," ++
        jsonToString b ++ ")"
  | .textDiff p a b =>
      "textdiff(" ++ p.toStr ++ "," ++ jsonToString a ++ "," ++
        jsonToString b ++ ")"
  | .deleted p v => "deleted(" ++ p.toStr ++ "," ++ jsonToString v ++ ")"
  | .moved p q v =>
      "moved(" ++ p.toStr ++ "," ++ q.toStr ++ "," ++ jsonToString v ++ ")"

def deltasToString : List Delta → String
  | [] => ""
  | d :: rest => deltaToString d ++ ";" ++ deltasToString rest
end

/-- Modelled from the spec: `deltaFormatter.NewDeltaFormatter().Format`. -/
def deltaFormatterFormat (d : Option JDiff) : String :=
  match d with
  | none => ""
  | some jd => "[" ++ deltasToString jd.deltas ++ "]"

/-- Merges the delta's top-level added members into the left document. -/
def mergeAddedTop (l : Json) (ds : List Delta) : Json :=
  ds.foldl (fun acc dd =>
    match dd with
    | .added (.name k) v =>
        match acc with
        | .obj kvs => if hasKey kvs k then acc else Json.obj (kvs ++ [(k, v)])
        | a => a
    | _ => acc) l

/-- Modelled from the spec: the flat JSON renderer
(`formatter.NewJSONFormatter(left).Format`, not under src/): emits the left
document with the delta's added members merged in. -/
def jsonFormatterFormat (left : Option Json) (d : Option JDiff) : String :=
  match left, d with
  | some l, some jd => jsonToString (mergeAddedTop l jd.deltas)
  | _, _ => ""

/-- Modelled from the spec: the ASCII renderer binding of the `basic` diff
type (`formatter.NewBasicFormatter(left).Format`, not under src/); the
line-oriented ASCII renderer itself is the embedded `asciiFormat`. -/
def basicFormatterFormat (left : Option Json) (d : Option JDiff) : String :=
  (asciiFormat (left.getD Json.null) ((d.map JDiff.deltas).getD [])
    AsciiFormatterDefaultConfig).1

/-- Modelled from the spec: simplejson marshalling of a version record.  The
payload appears under "data"; the exact field keys are fixed and distinct. -/
def encodeVersion (v : DashboardVersionRec) : Json :=
  Json.obj [("dashboardId", Json.num v.dashboardId),
            ("parentVersion", Json.num v.parentVersion),
            ("restoredFrom", Json.num v.restoredFrom),
            ("version", Json.num v.version),
            ("created", Json.num v.created),
            ("createdBy", Json.num v.createdBy),
            ("message", Json.str v.message),
            ("data", v.data)]

/-- Models `getDiff` (dashboard_version.go): encodes both versions, compares
them, and returns the sentinel `none` — Go's `(nil, nil, nil)` — when the
diff reports no modification, otherwise the decoded left document and the
diff.  The JSON marshal/unmarshal steps cannot fail on these values. -/
def getDiff (originalDash newDash : DashboardVersionRec) :
    Option (Json × JDiff) :=
  let jsonDiff := compareJson (encodeVersion originalDash)
    (encodeVersion newDash)
  if jsonDiff.isModified then some (encodeVersion originalDash, jsonDiff)
  else none

/-- Modelled from the spec: the three recognized diff format selector values
(`m.DiffDelta`, `m.DiffJSON`, `m.DiffBasic`; the models package is not under
src/). -/
def DiffDelta : String := "delta"

def DiffJSON : String := "json"

def DiffBasic : String := "basic"

/-- `m.CompareDashboardVersionsCommand`; `newVersion` is the Go field `New`,
`delta` the output field `Delta` (nil until assigned). -/
structure CompareCmd where
  dashboardId : Int
  original : Int
  newVersion : Int
  diffType : String
  delta : Option String

/-- Models `CompareDashboardVersionsCommand`: fetches both versions, computes
the diff, then dispatches on the `DiffType` selector, assigning the rendered
bytes to the command's `Delta` field; an unrecognized selector fails with
`ErrUnsupportedDiffType`, leaving the command untouched. -/
def compareDashboardVersionsCommand (s : SqlStore) (cmd : CompareCmd) :
    Option Err × CompareCmd :=
  match getDashboardVersion s cmd.dashboardId cmd.original with
  | .error e => (some e, cmd)
  | .ok original =>
    match getDashboardVersion s cmd.dashboardId cmd.newVersion with
    | .error e => (some e, cmd)
    | .ok newDashboard =>
      let gd := getDiff original newDashboard
      let left := gd.map Prod.fst
      let jsonDiff := gd.map Prod.snd
      if cmd.diffType = DiffDelta then
        (none, { cmd with delta := some (deltaFormatterFormat jsonDiff) })
      else if cmd.diffType = DiffJSON then
        (none, { cmd with delta := some (jsonFormatterFormat left jsonDiff) })
      else if cmd.diffType = DiffBasic then
        (none, { cmd with delta := some (basicFormatterFormat left jsonDiff) })
      else (some .unsupportedDiffType, cmd)

/-- C10: AsciiFormatter.Format succeeds (returns no error) exactly when the
root of the left-hand value is an object or an array; for every other root it
returns the error naming the expected container types and the empty result
string. -/
theorem ascii_format_root_type_check (left : Json) (deltas : List Delta)
    (config : AsciiFormatterConfig) :
    (left.isScalar = false → (asciiFormat left deltas config).2 = none) ∧
    (left.isScalar = true →
      asciiFormat left deltas config =
        ("", some ("expected map[string]interface\x7b\x7d or []interface\x7b\x7d, got "
          ++ goTypeName left))) := by
  constructor <;> intro h <;>
    cases left <;> simp_all [asciiFormat, Json.isScalar]

/-- C10 (witness): a numeric root makes Format fail with the expected-types
error and an empty result. -/
theorem ascii_format_root_type_check_witness :
    asciiFormat (Json.num 1) [] AsciiFormatterDefaultConfig =
      ("", some "expected map[string]interface\x7b\x7d or []interface\x7b\x7d, got float64") := by
  have h := (ascii_format_root_type_check (Json.num 1) []
    AsciiFormatterDefaultConfig).2 rfl
  simpa [goTypeName] using h

theorem listMax_ge_init (a : Int) (l : List Int) : a ≤ listMax a l := by
  induction l generalizing a with
  | nil => simp [listMax]
  | cons x xs ih =>
    calc a ≤ max a x := le_max_left a x
      _ ≤ listMax (max a x) xs := ih (max a x)
      _ = listMax a (x :: xs) := rfl

theorem listMax_ge_mem (a : Int) (l : List Int) :
    ∀ x ∈ l, x ≤ listMax a l := by
  induction l generalizing a with
  | nil => simp
  | cons y ys ih =>
    intro x hx
    rcases List.mem_cons.mp hx with h | h
    · subst h
      calc x ≤ max a x := le_max_right a x
        _ ≤ listMax (max a x) ys := listMax_ge_init _ _
    · exact ih (max a y) x h

theorem listMax_mem_or_init (a : Int) (l : List Int) :
    listMax a l = a ∨ listMax a l ∈ l := by
  induction l generalizing a with
  | nil => left; rfl
  | cons x xs ih =>
    rcases ih (max a x) with h | h
    · rcases le_total x a with hm | hm
      · left
        simp only [listMax]
        rw [h, max_eq_left hm]
      · right
        simp only [listMax]
        rw [h, max_eq_right hm]
        exact List.mem_cons_self x xs
    · right
      simp only [listMax]
      exact List.mem_cons_of_mem x h

/-- C4: computing the next version number fails with the document-not-found
error when no version rows exist for the document, and otherwise returns one
greater than the maximum version number among that document's rows. -/
theorem getMaxVersion_spec (s : SqlStore) (dashboardId : Int) :
    ((versionRowsFor s dashboardId).isEmpty = true →
      getMaxVersion s dashboardId = .error .dashboardNotFound) ∧
    ((versionRowsFor s dashboardId).isEmpty = false →
      ∃ n, getMaxVersion s dashboardId = .ok (n + 1) ∧
        (∃ r ∈ versionRowsFor s dashboardId, r.version = n) ∧
        (∀ r ∈ versionRowsFor s dashboardId, r.version ≤ n)) := by
  unfold getMaxVersion
  cases hrows : versionRowsFor s dashboardId with
  | nil => exact ⟨fun _ => rfl, by simp⟩
  | cons r rest =>
    refine ⟨by simp, fun _ => ?_⟩
    refine ⟨listMax r.version (rest.map (fun q => q.version)), rfl, ?_, ?_⟩
    · rcases listMax_mem_or_init r.version (rest.map (fun q => q.version))
        with h | h
      · exact ⟨r, by simp, h.symm⟩
      · rcases List.mem_map.mp h with ⟨q, hq, hqv⟩
        exact ⟨q, by simp [hq], hqv⟩
    · intro q hq
      rcases List.mem_cons.mp hq with h | h
      · rw [h]
        exact listMax_ge_init _ _
      · exact listMax_ge_mem _ _ q.version (List.mem_map.mpr ⟨q, h, rfl⟩)

/-- C4 (witness): a store with one version row for document 1 yields next
version 2; a document without rows fails with the not-found error. -/
theorem getMaxVersion_spec_witness :
    getMaxVersion ⟨[], [⟨1, 0, 0, 1, 0, 7, "m", Json.null⟩]⟩ 1 =
        .ok (1 + 1) ∧
    getMaxVersion ⟨[], [⟨1, 0, 0, 1, 0, 7, "m", Json.null⟩]⟩ 2 =
        .error .dashboardNotFound := by
  constructor
  · obtain ⟨n, hok, ⟨r, hr, hrv⟩, hub⟩ :=
      (getMaxVersion_spec ⟨[], [⟨1, 0, 0, 1, 0, 7, "m", Json.null⟩]⟩ 1).2
        (by rfl)
    have hn : n = 1 := by
      have h1 : r = ⟨1, 0, 0, 1, 0, 7, "m", Json.null⟩ := by
        simpa [versionRowsFor] using hr
      rw [← hrv, h1]
    rw [hn] at hok
    exact hok
  · exact (getMaxVersion_spec ⟨[], [⟨1, 0, 0, 1, 0, 7, "m", Json.null⟩]⟩ 2).1
      (by rfl)

/-- C5 (counterexample): rendering is not mutation-free — `mapMerge`, called
by `Printer.Format` on the caller's left map, adds the right-only key "a" to
a left map that did not contain it, so the left input is changed in place. -/
theorem mapMerge_mutates_left_counterexample :
    mapMerge (Json.obj []) (Json.obj [("a", Json.num 1)]) =
      Json.obj [("a", Json.num 1)] ∧
    mapMerge (Json.obj []) (Json.obj [("a", Json.num 1)]) ≠ Json.obj [] := by
  refine ⟨rfl, ?_⟩
  intro h
  simp [mapMerge, hasKey] at h

/-- C5 (amended): the diff engine and the ASCII renderer never mutate their
inputs, but `Printer.Format`'s `mapMerge` writes the right map's missing keys
into the left map in place; the left value is unchanged exactly when every
key of the right map already occurs in it, and any call with a non-object
right operand leaves every left value unchanged. -/
theorem mapMerge_preserves_left_of_keys_present (lm rm : List (String × Json))
    (r : Json) (h : ∀ kv ∈ rm, hasKey lm kv.1 = true) :
    mapMerge (Json.obj lm) (Json.obj rm) = Json.obj lm ∧
    (r.isScalar = true → ∀ l : Json, mapMerge l r = l) := by
  constructor
  · have key : ∀ (rm' : List (String × Json)),
        (∀ kv ∈ rm', hasKey lm kv.1 = true) →
        rm'.foldl (fun acc kv =>
          if hasKey acc kv.1 then acc else acc ++ [kv]) lm = lm := by
      intro rm'
      induction rm' with
      | nil => intro _; rfl
      | cons kv rest ih =>
        intro hall
        have hk : hasKey lm kv.1 = true := hall kv (by simp)
        simpa [List.foldl, hk] using ih (fun q hq => hall q (by simp [hq]))
    simp [mapMerge, key rm h]
  · intro hscalar l
    cases r <;> simp_all [Json.isScalar, mapMerge] <;> cases l <;> rfl

/-- C5 (witness): when the right map's keys all occur in the left map,
`mapMerge` leaves the left map unchanged, and a scalar right operand leaves
any left value unchanged. -/
theorem mapMerge_preserves_left_witness :
    mapMerge (Json.obj [("a", Json.num 1), ("b", Json.num 2)])
        (Json.obj [("a", Json.num 3)]) =
      Json.obj [("a", Json.num 1), ("b", Json.num 2)] ∧
    mapMerge (Json.obj [("a", Json.num 1)]) (Json.num 7) =
      Json.obj [("a", Json.num 1)] := by
  have h := mapMerge_preserves_left_of_keys_present
    [("a", Json.num 1), ("b", Json.num 2)] [("a", Json.num 3)] (Json.num 7)
    (by intro kv hkv; simp at hkv; simp [hkv, hasKey])
  exact ⟨h.1, h.2 rfl (Json.obj [("a", Json.num 1)])⟩

/-- C2 (counterexample): when the live-document update matches zero rows, the
final update-and-append step fails with `ErrDashboardNotFound` — not with the
distinct `Conflict` error the claim names (the rollback itself does hold: the
store is returned unchanged). -/
theorem update_and_append_not_conflict_counterexample :
    updateAndAppendTx ⟨[], []⟩
        ⟨1, 2, Json.obj [], 0, 0⟩ ⟨1, 1, 1, 2, 0, 0, "", Json.obj []⟩ =
      (Except.error Err.dashboardNotFound, ⟨[], []⟩) ∧
    Err.dashboardNotFound ≠ Err.conflict := by
  exact ⟨rfl, by decide⟩

/-- C2 (amended): if the live-document update matches zero rows the step
fails with the document-not-found error, and if the version insert violates
the version-number uniqueness invariant it fails with the store's
duplicate-key error; in both cases — and on every other failure of the step
or of the whole restore — no partial effect is visible: the transaction
leaves the store exactly as it was. -/
theorem update_and_append_fails_safely (s : SqlStore) (d : Dashboard)
    (v : DashboardVersionRec) :
    ((s.dashboards.filter (fun r => r.id == d.id)).length = 0 →
      updateAndAppendTx s d v = (.error .dashboardNotFound, s)) ∧
    ((s.dashboards.filter (fun r => r.id == d.id)).length ≠ 0 →
      (s.dashboardVersions.filter (fun r =>
          r.dashboardId == v.dashboardId && r.version == v.version)).isEmpty
        = false →
      updateAndAppendTx s d v = (.error .uniqueConstraintViolation, s)) ∧
    (∀ e s2, updateAndAppendTx s d v = (.error e, s2) → s2 = s) ∧
    (∀ cmd now e s2,
      restoreDashboardVersion s cmd now = (.error e, s2) → s2 = s) := by
  refine ⟨?_, ?_, ?_, ?_⟩
  · intro h0
    simp [updateAndAppendTx, inTransaction, updateAndAppend, updateDashboard, h0]
  · intro hne hdup
    simp only [updateAndAppendTx, inTransaction, updateAndAppend,
      updateDashboard, insertVersion]
    rw [if_neg (by simpa using hne)]
    simp [hdup]
  · intro e s2 h
    unfold updateAndAppendTx inTransaction at h
    split at h
    · simp at h
    · simp at h
      exact h.2.symm
  · intro cmd now e s2 h
    unfold restoreDashboardVersion inTransaction at h
    split at h
    · simp at h
    · simp at h
      exact h.2.symm

/-- C2 (witness): with a live dashboard row present and a version row already
carrying the inserted version number, the step fails with the duplicate-key
error and the store is unchanged; a rollback instance is also exercised. -/
theorem update_and_append_fails_safely_witness :
    updateAndAppendTx
        ⟨[⟨1, 1, Json.null, 0, 0⟩], [⟨1, 0, 0, 2, 0, 0, "", Json.null⟩]⟩
        ⟨1, 2, Json.obj [], 0, 0⟩ ⟨1, 1, 1, 2, 0, 0, "", Json.obj []⟩ =
      (.error .uniqueConstraintViolation,
        ⟨[⟨1, 1, Json.null, 0, 0⟩], [⟨1, 0, 0, 2, 0, 0, "", Json.null⟩]⟩) := by
  exact (update_and_append_fails_safely
    ⟨[⟨1, 1, Json.null, 0, 0⟩], [⟨1, 0, 0, 2, 0, 0, "", Json.null⟩]⟩
    ⟨1, 2, Json.obj [], 0, 0⟩ ⟨1, 1, 1, 2, 0, 0, "", Json.obj []⟩).2.1
    (by decide) (by rfl)

/-- C3 (code_bug): at left value `{"a": 1}` with the DeltaModel claiming an
`Object` delta at "a" — whose concrete value is the scalar 1 — `processItem`
does produce the "Type mismatch" error, but `processObject` discards the
returned error and `Format` succeeds, returning the partial output (the item
is silently skipped) together with a nil error. -/
theorem ascii_format_swallows_type_mismatch :
    (processItem (Json.num 1) [Delta.object (Position.name "a") []]
        (Position.name "a")
        ⟨" \x7b\n", ["ROOT"], [1], [false], none, AsciiFormatterDefaultConfig⟩).2
      = some "Type mismatch" ∧
    asciiFormat (Json.obj [("a", Json.num 1)])
        [Delta.object (Position.name "a") []] AsciiFormatterDefaultConfig
      = (" \x7b\n \x7d\n", none) := by
  constructor
  · simp [processItem, processMatched, searchDeltas, matchesPosition]
  · simp [asciiFormat, formatObject, processObject, processKeys,
      processObjectAdded, sortedKeys, sortStringsAsc, insertKeySorted, lookupJ,
      processItem, processMatched, searchDeltas, matchesPosition,
      printRecursive, printMembers, printElems, printKey, printComma,
      printValue, printValueStr, printStr, appendToLine, newLine, closeLine,
      addLineWith, push, pop, indentStr, AsciiSame, AsciiAdded, AsciiDeleted,
      asciiStyleOf, topSize, setTopSize, incTopSize,
      AsciiFormatterDefaultConfig, Position.toStr]

/-- C9: once the two versions are fetched, a diff-format selector outside the
three recognized values makes the command fail with ErrUnsupportedDiffType,
leaving the command — in particular its `Delta` output field — untouched;
each of the three recognized selectors dispatches to the corresponding
renderer and stores its output. -/
theorem compare_dispatch_spec (s : SqlStore) (cmd : CompareCmd)
    (original newDashboard : DashboardVersionRec)
    (h1 : getDashboardVersion s cmd.dashboardId cmd.original = .ok original)
    (h2 : getDashboardVersion s cmd.dashboardId cmd.newVersion =
      .ok newDashboard) :
    (cmd.diffType ≠ DiffDelta → cmd.diffType ≠ DiffJSON →
      cmd.diffType ≠ DiffBasic →
      compareDashboardVersionsCommand s cmd =
        (some Err.unsupportedDiffType, cmd)) ∧
    (cmd.diffType = DiffDelta →
      compareDashboardVersionsCommand s cmd =
        (none, { cmd with delta := some (deltaFormatterFormat
          ((getDiff original newDashboard).map Prod.snd)) })) ∧
    (cmd.diffType = DiffJSON →
      compareDashboardVersionsCommand s cmd =
        (none, { cmd with delta := some (jsonFormatterFormat
          ((getDiff original newDashboard).map Prod.fst)
          ((getDiff original newDashboard).map Prod.snd)) })) ∧
    (cmd.diffType = DiffBasic →
      compareDashboardVersionsCommand s cmd =
        (none, { cmd with delta := some (basicFormatterFormat
          ((getDiff original newDashboard).map Prod.fst)
          ((getDiff original newDashboard).map Prod.snd)) })) := by
  refine ⟨?_, ?_, ?_, ?_⟩ <;> intro hd
  · intro hj hb
    simp [compareDashboardVersionsCommand, h1, h2, hd, hj, hb]
  · simp [compareDashboardVersionsCommand, h1, h2, hd]
  · simp [compareDashboardVersionsCommand, h1, h2, hd, DiffDelta, DiffJSON]
  · simp [compareDashboardVersionsCommand, h1, h2, hd, DiffDelta, DiffJSON,
      DiffBasic]

/-- C9 (witness): on a store holding versions 1 and 2 of document 1, the
selector "xml" fails with ErrUnsupportedDiffType and leaves the command
untouched, while "delta" dispatches to the delta renderer. -/
theorem compare_dispatch_spec_witness :
    compareDashboardVersionsCommand
        ⟨[], [⟨1, 0, 0, 1, 0, 5, "", Json.obj []⟩,
              ⟨1, 1, 0, 2, 0, 5, "", Json.obj []⟩]⟩
        ⟨1, 1, 2, "xml", none⟩ =
      (some Err.unsupportedDiffType, ⟨1, 1, 2, "xml", none⟩) ∧
    compareDashboardVersionsCommand
        ⟨[], [⟨1, 0, 0, 1, 0, 5, "", Json.obj []⟩,
              ⟨1, 1, 0, 2, 0, 5, "", Json.obj []⟩]⟩
        ⟨1, 1, 2, "delta", none⟩ =
      (none, ⟨1, 1, 2, "delta", some (deltaFormatterFormat
        ((getDiff ⟨1, 0, 0, 1, 0, 5, "", Json.obj [("id", Json.num 1)]⟩
          ⟨1, 1, 0, 2, 0, 5, "", Json.obj [("id", Json.num 1)]⟩).map
            Prod.snd))⟩) := by
  have ha := compare_dispatch_spec
    ⟨[], [⟨1, 0, 0, 1, 0, 5, "", Json.obj []⟩,
          ⟨1, 1, 0, 2, 0, 5, "", Json.obj []⟩]⟩
    ⟨1, 1, 2, "xml", none⟩
    ⟨1, 0, 0, 1, 0, 5, "", Json.obj [("id", Json.num 1)]⟩
    ⟨1, 1, 0, 2, 0, 5, "", Json.obj [("id", Json.num 1)]⟩ rfl rfl
  have hb := compare_dispatch_spec
    ⟨[], [⟨1, 0, 0, 1, 0, 5, "", Json.obj []⟩,
          ⟨1, 1, 0, 2, 0, 5, "", Json.obj []⟩]⟩
    ⟨1, 1, 2, "delta", none⟩
    ⟨1, 0, 0, 1, 0, 5, "", Json.obj [("id", Json.num 1)]⟩
    ⟨1, 1, 0, 2, 0, 5, "", Json.obj [("id", Json.num 1)]⟩ rfl rfl
  exact ⟨ha.1 (by decide) (by decide) (by decide), hb.2.1 rfl⟩

theorem wfJson_encodeVersion (v : DashboardVersionRec)
    (h : wfJson v.data = true) : wfJson (encodeVersion v) = true := by
  simp [encodeVersion, wfJson, wfMembers, hasKey, h]

/-- C6: diffing two deeply equal roots yields the distinguished "no changes"
sentinel: for every well-formed JSON value the modelled diff engine produces
no deltas on (w, w) and reports not-modified, and `getDiff` on a version
record against itself returns the sentinel `none` — Go's (nil, nil, nil) —
which is distinct from any present diff, in particular from an empty
Object/Array delta. -/
theorem diff_self_is_sentinel (w : Json) (v : DashboardVersionRec)
    (hw : wfJson w = true) (hv : wfJson v.data = true) :
    (compareJson w w).deltas = [] ∧
    (compareJson w w).isModified = false ∧
    getDiff v v = none ∧
    (∀ l : Json, ∀ jd : JDiff, getDiff v v ≠ some (l, jd)) := by
  have hd := compareJson_self hw
  have hvv : (compareJson (encodeVersion v) (encodeVersion v)).deltas = [] :=
    compareJson_self (wfJson_encodeVersion v hv)
  have hgd : getDiff v v = none := by
    unfold getDiff
    rw [if_neg]
    intro hmod
    rw [JDiff.isModified] at hmod
    simp [hvv] at hmod
  refine ⟨hd, ?_, hgd, ?_⟩
  · rw [JDiff.isModified]
    simp [hd]
  · intro l jd h
    rw [hgd] at h
    exact Option.noConfusion h

/-- C6 (witness): a concrete nested value and version record. -/
theorem diff_self_is_sentinel_witness :
    (compareJson
      (Json.obj [("a", Json.num 1), ("b", Json.arr [Json.str "x", Json.null])])
      (Json.obj [("a", Json.num 1), ("b", Json.arr [Json.str "x", Json.null])])).deltas
      = [] ∧
    getDiff ⟨1, 0, 0, 1, 0, 5, "", Json.obj [("t", Json.bool true)]⟩
      ⟨1, 0, 0, 1, 0, 5, "", Json.obj [("t", Json.bool true)]⟩ = none := by
  have h := diff_self_is_sentinel
    (Json.obj [("a", Json.num 1), ("b", Json.arr [Json.str "x", Json.null])])
    ⟨1, 0, 0, 1, 0, 5, "", Json.obj [("t", Json.bool true)]⟩
    (by simp [wfJson, wfMembers, wfElems, hasKey])
    (by simp [wfJson, wfMembers, hasKey])
  exact ⟨h.1, h.2.2.1⟩

/-- C7: the ASCII renderer's member visit is exactly `sortedKeys` — the
rendering of an object processes its keys through the sorted list — and that
list is lexicographically ascending, is a permutation of the object's keys,
and depends only on the multiset of keys, not on the order the input document
stores them in; this holds at every nesting level since `processObject` and
`printRecursive` both visit members through `sortedKeys`. -/
theorem ascii_sorted_key_order (object : List (String × Json))
    (deltas : List Delta) (st : FmtState) :
    processObject object deltas st =
      processObjectAdded deltas
        (processKeys (sortedKeys object) object deltas st) ∧
    (sortedKeys object).Sorted (· ≤ ·) ∧
    List.Perm (sortedKeys object) (object.map Prod.fst) ∧
    (∀ object' : List (String × Json),
      List.Perm (object.map Prod.fst) (object'.map Prod.fst) →
      sortedKeys object = sortedKeys object') := by
  refine ⟨?_, sortedKeys_sorted object, sortedKeys_perm object, ?_⟩
  · rw [processObject]
  · intro object' hp
    exact sortedKeys_perm_invariant object object' hp

/-- C7 (witness): concrete objects with the same keys in different orders
render through the same ascending key list. -/
theorem ascii_sorted_key_order_witness :
    (sortedKeys [("b", Json.num 1), ("a", Json.num 2)]).Sorted (· ≤ ·) ∧
    sortedKeys [("b", Json.num 1), ("a", Json.num 2)] =
      sortedKeys [("a", Json.num 5), ("b", Json.null)] := by
  have h := ascii_sorted_key_order [("b", Json.num 1), ("a", Json.num 2)] []
    ⟨"", [], [], [], none, AsciiFormatterDefaultConfig⟩
  exact ⟨h.2.1, h.2.2.2 [("a", Json.num 5), ("b", Json.null)] (by decide)⟩

theorem insertVersion_ok_versions {s : SqlStore} {v : DashboardVersionRec}
    {s2 : SqlStore} {aff : Nat} (h : insertVersion s v = .ok (s2, aff)) :
    s2.dashboardVersions = v :: s.dashboardVersions := by
  unfold insertVersion at h
  split at h
  · simp only [Except.ok.injEq, Prod.mk.injEq] at h
    rw [← h.1]
  · exact absurd h (by simp)

theorem updateAndAppend_ok_versions {s : SqlStore} {dd : Dashboard}
    {dv : DashboardVersionRec} {s2 : SqlStore}
    (h : updateAndAppend s dd dv = .ok s2) :
    s2.dashboardVersions = dv :: s.dashboardVersions := by
  simp only [updateAndAppend] at h
  split at h
  · exact absurd h (by simp)
  · split at h
    next e heq => exact absurd h (by simp)
    next s2x aff heq =>
      split at h
      · exact absurd h (by simp)
      · simp only [Except.ok.injEq] at h
        rw [← h]
        simpa [updateDashboard] using insertVersion_ok_versions heq

/-- C1: a successful restore inserts a Version record whose parent-version
and restored-from both equal the target version number, whose version number
is the freshly computed next number, whose message is empty, and whose
payload equals the new live Document state — the fetched target version's
payload with its version field rewritten to the new number and the
restoredFrom provenance marker set — and it returns that updated Document
(with the new version number, timestamp and actor), the new record being
appended on top of the untouched version log. -/
theorem restore_builds_provenance_version (s : SqlStore) (cmd : RestoreCmd)
    (now : Int) (d : Dashboard) (s2 : SqlStore)
    (h : restoreDashboardVersion s cmd now = (.ok d, s2)) :
    ∃ target dash0 nextVersion,
      getDashboardVersion s cmd.dashboardId cmd.version = .ok target ∧
      getDashboard s cmd.dashboardId = .ok dash0 ∧
      getMaxVersion s dash0.id = .ok nextVersion ∧
      ∃ nv : DashboardVersionRec,
        s2.dashboardVersions = nv :: s.dashboardVersions ∧
        nv.parentVersion = cmd.version ∧
        nv.restoredFrom = cmd.version ∧
        nv.version = nextVersion ∧
        nv.message = "" ∧
        nv.data = d.data ∧
        d.version = nextVersion ∧
        d.updated = now ∧
        d.updatedBy = cmd.userId ∧
        d.data = (target.data.set "version" (Json.num nextVersion)).set
          "restoredFrom" (Json.num cmd.version) := by
  unfold restoreDashboardVersion inTransaction at h
  split at h
  case _ a s2x heq =>
    simp only [Prod.mk.injEq, Except.ok.injEq] at h
    obtain ⟨hda, hs2⟩ := h
    subst hda
    subst hs2
    simp only [restoreCore] at heq
    split at heq
    · exact absurd heq (by simp)
    case _ target htarget =>
      split at heq
      · exact absurd heq (by simp)
      case _ dash0 hdash0 =>
        split at heq
        · exact absurd heq (by simp)
        case _ nextVersion hmax =>
          split at heq
          · exact absurd heq (by simp)
          case _ s2y hupd =>
            simp only [Except.ok.injEq, Prod.mk.injEq] at heq
            obtain ⟨hda2, hs2y⟩ := heq
            subst hs2y
            subst hda2
            exact ⟨target, dash0, nextVersion, htarget, hdash0, hmax,
              _, updateAndAppend_ok_versions hupd, rfl, rfl, rfl, rfl, rfl,
              rfl, rfl, rfl, rfl⟩
  case _ e heq => exact absurd h (by simp)

/-- C1 (witness): restoring document 1 to version 1 on a concrete store
succeeds and the theorem's conclusion holds there. -/
theorem restore_builds_provenance_version_witness :
    ∃ target dash0 nextVersion,
      getDashboardVersion
        ⟨[⟨1, 1, Json.obj [("title", Json.str "t")], 0, 0⟩],
         [⟨1, 0, 0, 1, 0, 7, "m", Json.obj [("title", Json.str "t")]⟩]⟩ 1 1 =
        .ok target ∧
      getDashboard
        ⟨[⟨1, 1, Json.obj [("title", Json.str "t")], 0, 0⟩],
         [⟨1, 0, 0, 1, 0, 7, "m", Json.obj [("title", Json.str "t")]⟩]⟩ 1 =
        .ok dash0 ∧
      getMaxVersion
        ⟨[⟨1, 1, Json.obj [("title", Json.str "t")], 0, 0⟩],
         [⟨1, 0, 0, 1, 0, 7, "m", Json.obj [("title", Json.str "t")]⟩]⟩
        dash0.id = .ok nextVersion ∧
      ∃ nv : DashboardVersionRec,
        (⟨[⟨1, 2, Json.obj [("title", Json.str "t"), ("id", Json.num 1),
              ("version", Json.num 2), ("restoredFrom", Json.num 1)], 100, 9⟩],
          [⟨1, 1, 1, 2, 100, 9, "",
              Json.obj [("title", Json.str "t"), ("id", Json.num 1),
                ("version", Json.num 2), ("restoredFrom", Json.num 1)]⟩,
           ⟨1, 0, 0, 1, 0, 7, "m",
              Json.obj [("title", Json.str "t")]⟩]⟩ :
            SqlStore).dashboardVersions =
          nv :: (⟨[⟨1, 1, Json.obj [("title", Json.str "t")], 0, 0⟩],
            [⟨1, 0, 0, 1, 0, 7, "m", Json.obj [("title", Json.str "t")]⟩]⟩ :
              SqlStore).dashboardVersions ∧
        nv.parentVersion = (⟨1, 1, 9⟩ : RestoreCmd).version ∧
        nv.restoredFrom = (⟨1, 1, 9⟩ : RestoreCmd).version ∧
        nv.version = nextVersion ∧
        nv.message = "" ∧
        nv.data = (⟨1, 2, Json.obj [("title", Json.str "t"), ("id", Json.num 1),
            ("version", Json.num 2), ("restoredFrom", Json.num 1)], 100, 9⟩ :
            Dashboard).data ∧
        (⟨1, 2, Json.obj [("title", Json.str "t"), ("id", Json.num 1),
            ("version", Json.num 2), ("restoredFrom", Json.num 1)], 100, 9⟩ :
            Dashboard).version = nextVersion ∧
        (⟨1, 2, Json.obj [("title", Json.str "t"), ("id", Json.num 1),
            ("version", Json.num 2), ("restoredFrom", Json.num 1)], 100, 9⟩ :
            Dashboard).updated = 100 ∧
        (⟨1, 2, Json.obj [("title", Json.str "t"), ("id", Json.num 1),
            ("version", Json.num 2), ("restoredFrom", Json.num 1)], 100, 9⟩ :
            Dashboard).updatedBy = (⟨1, 1, 9⟩ : RestoreCmd).userId ∧
        (⟨1, 2, Json.obj [("title", Json.str "t"), ("id", Json.num 1),
            ("version", Json.num 2), ("restoredFrom", Json.num 1)], 100, 9⟩ :
            Dashboard).data =
          (target.data.set "version" (Json.num nextVersion)).set
            "restoredFrom" (Json.num (⟨1, 1, 9⟩ : RestoreCmd).version) :=
  restore_builds_provenance_version
    ⟨[⟨1, 1, Json.obj [("title", Json.str "t")], 0, 0⟩],
     [⟨1, 0, 0, 1, 0, 7, "m", Json.obj [("title", Json.str "t")]⟩]⟩
    ⟨1, 1, 9⟩ 100
    ⟨1, 2, Json.obj [("title", Json.str "t"), ("id", Json.num 1),
        ("version", Json.num 2), ("restoredFrom", Json.num 1)], 100, 9⟩
    ⟨[⟨1, 2, Json.obj [("title", Json.str "t"), ("id", Json.num 1),
          ("version", Json.num 2), ("restoredFrom", Json.num 1)], 100, 9⟩],
      [⟨1, 1, 1, 2, 100, 9, "",
          Json.obj [("title", Json.str "t"), ("id", Json.num 1),
            ("version", Json.num 2), ("restoredFrom", Json.num 1)]⟩,
       ⟨1, 0, 0, 1, 0, 7, "m", Json.obj [("title", Json.str "t")]⟩]⟩
    (by rfl)

theorem printRecursive_scalar {v : Json} (hv : v.isScalar = true)
    (name marker : String) (st : FmtState) :
    printRecursive name v marker st =
      closeLine (printComma (printValue v (printKey name (newLine marker st)))) := by
  cases v with
  | obj m => simp [Json.isScalar] at hv
  | arr s => simp [Json.isScalar] at hv
  | null => simp [printRecursive]
  | bool b => simp [printRecursive]
  | num n => simp [printRecursive]
  | str s => simp [printRecursive]

theorem printValue_scalar {v : Json} (hv : v.isScalar = true) (st : FmtState) :
    printValue v st = appendToLine (printValueStr v) st := by
  cases v <;> simp_all [Json.isScalar, printValue]

/-- Counts the newline characters, hence the output lines, of a rendered
buffer. -/
def countNewlines (s : String) : Nat :=
  (s.toList.filter (fun c => c == '\n')).length

/-- C8 (counterexample): a `modified` delta whose old value is the object
`{"a": 1}` (a whole-value replacement, as mismatched kinds produce) is
rendered as four lines — `{`, the member, `}` under the deleted marker and
then the new scalar under the added marker — not exactly two. -/
theorem modified_two_lines_counterexample :
    countNewlines ((processItem (Json.obj [("a", Json.num 1)])
        [Delta.modified (Position.name "x") (Json.obj [("a", Json.num 1)])
          (Json.num 2)]
        (Position.name "x")
        ⟨"", ["ROOT"], [2], [false], none, AsciiFormatterDefaultConfig⟩).1.buffer)
      = 4 ∧ (4 : Nat) ≠ 2 := by
  refine ⟨?_, by decide⟩
  simp [processItem, processMatched, searchDeltas, matchesPosition,
    printRecursive, printMembers, printElems, sortedKeys, sortStringsAsc,
    insertKeySorted, lookupJ, printKey, printComma, printValue, printValueStr,
    printStr, appendToLine, newLine, closeLine, addLineWith, push, pop,
    indentStr, AsciiSame, AsciiAdded, AsciiDeleted, asciiStyleOf, topSize,
    setTopSize, incTopSize, AsciiFormatterDefaultConfig, Position.toStr]
  rfl

/-- C8 (amended): a `Modified` delta whose old and new values are scalars is
rendered as exactly two lines — the old value under the deleted marker
immediately followed by the new value under the added marker, sharing the
same key/index label and the same trailing comma — and the enclosing level's
remaining-sibling counter, saved before the deleted line and restored after
it, ends up decremented exactly once (the decrement is effectively computed
against the added line); `TextDiff` deltas follow the identical code path.
For container-valued old/new values the same old-then-new order and single
decrement hold, but more than two lines are emitted. -/
theorem modified_renders_old_then_new (pos : Position)
    (oldValue newValue value : Json) (buf : String) (pth : List String)
    (a : Int) (szs : List Int) (ia : Bool) (ias : List Bool)
    (ln : Option AsciiLine) (sai : Bool)
    (ho : oldValue.isScalar = true) (hn : newValue.isScalar = true) :
    processItem value [Delta.modified pos oldValue newValue] pos
        ⟨buf, pth, a :: szs, ia :: ias, ln, ⟨sai, false⟩⟩ =
      (let label : String :=
        if ia = false then "\"" ++ pos.toStr ++ "\": "
        else if sai then pos.toStr ++ ": " else ""
      let comma : String := if a - 1 > 0 then "," else ""
      (⟨buf ++ (AsciiDeleted ++ indentStr pth.length ++ label ++
            printValueStr oldValue ++ comma ++ "\n") ++
          (AsciiAdded ++ indentStr pth.length ++ label ++
            printValueStr newValue ++ comma ++ "\n"),
        pth, (a - 1) :: szs, ia :: ias,
        some ⟨AsciiAdded, pth.length,
          label ++ printValueStr newValue ++ comma⟩,
        ⟨sai, false⟩⟩, none)) := by
  by_cases hc : a - 1 > 0 <;> cases ia <;> cases sai <;>
    simp [processItem, processMatched, searchDeltas, matchesPosition,
      printRecursive_scalar ho, printRecursive_scalar hn,
      printValue_scalar ho, printValue_scalar hn,
      printKey, printComma, printStr, appendToLine, newLine, closeLine,
      topSize, setTopSize, AsciiSame, AsciiAdded, AsciiDeleted, asciiStyleOf,
      hc, String.append_assoc, String.append_empty, String.empty_append] <;>
  simp [← String.append_assoc]

/-- C8 (witness): a scalar 1 → 2 modification under key "x" with two
remaining siblings renders the deleted line and the added line with the same
label and comma, and the sibling counter drops from 2 to 1. -/
theorem modified_renders_old_then_new_witness :
    processItem (Json.num 1)
        [Delta.modified (Position.name "x") (Json.num 1) (Json.num 2)]
        (Position.name "x")
        ⟨"", ["ROOT"], [2], [false], none, ⟨false, false⟩⟩ =
      (⟨"-  \"x\": 1,\n+  \"x\": 2,\n", ["ROOT"], [1], [false],
        some ⟨"+", 1, "\"x\": 2,"⟩, ⟨false, false⟩⟩, none) := by
  have h := modified_renders_old_then_new (Position.name "x") (Json.num 1)
    (Json.num 2) (Json.num 1) "" ["ROOT"] 2 [] false [] none false rfl rfl
  simpa [AsciiDeleted, AsciiAdded, indentStr, printValueStr,
    Position.toStr] using h
